import Mathlib

/-!
# Co-Bot: verification of the per-channel message pipeline

Shallow embedding, in Lean 4, of the core of the Co-Bot Discord bot
(`src/bot.js`, `src/copilot.js`): the reply chunker `splitMessage`, the
attachment fetcher `downloadAttachments`, the context assembler
`buildPrompt`'s history-paging loop, the per-message processor
`processMessage`, the per-channel queue dispatcher
(`onMessage`/`processQueue`), and the model switcher `setModel`.

Strings are embedded as `List Char`; the mutable state of the JavaScript
program (temporary files, the per-channel queue and the `processingChannels`
guard) is embedded as explicit state passed through step functions.
External effects (HTTP downloads, the completion service, the Discord
history API) are parameters (oracles) of the embedded functions.
-/

namespace CoBot

/-- Constant `DISCORD_MSG_LIMIT = 2000` (bot.js). -/
def DISCORD_MSG_LIMIT : Nat := 2000

/-- The characters matched by JavaScript's `trimStart`/`trim` and by the
whitespace class `\s`: ASCII whitespace, NBSP, BOM, the Unicode `Zs` space
separators and the line/paragraph separators. -/
def jsWhitespaceChars : List Char :=
  [' ', '\t', '\n', '\r', '\x0b', '\x0c', '\u00A0', '\uFEFF',
   '\u1680', '\u2000', '\u2001', '\u2002', '\u2003', '\u2004', '\u2005',
   '\u2006', '\u2007', '\u2008', '\u2009', '\u200A', '\u2028', '\u2029',
   '\u202F', '\u205F', '\u3000']

/-- Whether a character is JavaScript whitespace. -/
def jsWhitespace (c : Char) : Bool := c ∈ jsWhitespaceChars

/-- JavaScript `String.prototype.lastIndexOf` for a single character:
the greatest index of `c` in `l`, or `-1` when `c` does not occur. -/
def jsLastIndexOf (c : Char) (l : List Char) : Int :=
  match l.reverse.findIdx? (fun x => x == c) with
  | none => -1
  | some j => ((l.length - 1 - j : Nat) : Int)

/-- One iteration of the `splitMessage` loop body (bot.js lines 378–381):
take the first `DISCORD_MSG_LIMIT` characters as a candidate chunk, and if
the last newline or space of the candidate lies at an index greater than
`DISCORD_MSG_LIMIT - 500`, truncate the candidate just before it. -/
def splitChunk (remaining : List Char) : List Char :=
  let chunk := remaining.take DISCORD_MSG_LIMIT
  let split := max (jsLastIndexOf '\n' chunk) (jsLastIndexOf ' ' chunk)
  if (DISCORD_MSG_LIMIT : Int) - 500 < split then chunk.take split.toNat else chunk

/-- The remainder after one iteration of the `splitMessage` loop (bot.js
line 383): drop the emitted chunk and `trimStart` the rest. -/
def splitRest (remaining : List Char) : List Char :=
  (remaining.drop (splitChunk remaining).length).dropWhile jsWhitespace

/-- The `while (remaining.length > 0)` loop of `splitMessage` (bot.js lines
377–384).  The loop is embedded with an explicit fuel argument so that it is
structurally recursive; `splitRest` strictly shrinks a non-empty remainder
(`splitRest_length_lt`), so a fuel of `remaining.length` is always enough,
and with adequate fuel the `0` case is unreachable. -/
def splitLoop : Nat → List Char → List (List Char)
  | 0, _ => []
  | fuel + 1, remaining =>
    if remaining = [] then []
    else splitChunk remaining :: splitLoop fuel (splitRest remaining)

/-- Embedding of `DiscordBot.splitMessage` (bot.js lines 371–387). -/
def splitMessage (content : List Char) : List (List Char) :=
  if content.length ≤ DISCORD_MSG_LIMIT then [content]
  else splitLoop content.length content

/-! ## Whitespace tokens and normalization

`joinSep` is `chunks.join(' ')` (re-joining chunks with single separators);
`wsTokens` lists the maximal whitespace-free runs of a text; `normalizeWs`
collapses every whitespace run to a single space and trims the ends, the
normalization used by the repository's own test
(`chunks.join(' ').replace(/\s+/g, ' ').trim()`). -/
/-- Join chunks with a single space separator, as in `chunks.join(' ')`. -/
def joinSep : List (List Char) → List Char
  | [] => []
  | [chunk] => chunk
  | chunk :: rest => chunk ++ ' ' :: joinSep rest

/-- The maximal whitespace-free tokens of a text, in order. -/
def wsTokens : List Char → List (List Char)
  | [] => []
  | c :: rest =>
    if jsWhitespace c then wsTokens rest
    else ((c :: rest).takeWhile (fun x => !jsWhitespace x))
           :: wsTokens (rest.dropWhile (fun x => !jsWhitespace x))
termination_by l => l.length
decreasing_by
  · simp
  · have := (List.dropWhile_sublist (l := rest) (fun x => !jsWhitespace x)).length_le
    simp
    omega

/-- Whitespace-run normalization: tokens joined by single spaces. -/
def normalizeWs (l : List Char) : List Char := joinSep (wsTokens l)

/-! ## Attachment fetcher and per-message processor

`downloadAttachments` (bot.js lines 322–349) walks the message's
attachments: non-image attachments are skipped silently; an image whose
declared size exceeds `MAX_IMAGE_SIZE_MB` draws one "too large" reply and
is skipped; otherwise `downloadFile` materializes a file at a temporary
path (an effect recorded in `tempFiles` whether or not the transfer
succeeds, since `fs.createWriteStream(dest)` runs first) and, when the
transfer succeeds, the attachment is added to the results.  The network is
an oracle `dlOk`; `Date.now()` is the parameter `now`. -/
/-- An `AttachmentRef` as delivered by Discord: `attachment.name`,
`attachment.contentType` (possibly absent), `attachment.size` (bytes),
`attachment.url`. -/
structure Attachment where
  name : String
  contentType : Option String
  size : Nat
  url : String
deriving DecidableEq

/-- The configuration fields consumed by `downloadAttachments` (index.js
`loadConfig`). -/
structure BotConfig where
  imageSupport : Bool
  maxImageSizeMB : Nat
deriving DecidableEq

/-- The ceiling `MAX_IMAGE_SIZE_MB * 1024 * 1024` (bot.js line 325). -/
def maxBytes (cfg : BotConfig) : Nat := cfg.maxImageSizeMB * 1024 * 1024

/-- The test `attachment.contentType?.startsWith('image/')` (bot.js line 329);
`startsWith` is expressed through `List.isPrefixOf` on the underlying
character lists, which agrees with `String.startsWith`. -/
def isImageAttachment (a : Attachment) : Bool :=
  match a.contentType with
  | some ct => List.isPrefixOf "image/".toList ct.toList
  | none => false

/-- The "too large" reply text (bot.js lines 332–334). -/
def tooLargeNotice (cfg : BotConfig) (a : Attachment) : String :=
  "\"" ++ a.name ++ "\" is too large (max " ++ toString cfg.maxImageSizeMB ++ " MB)."

/-- The path `os.tmpdir()` joined with `cobot_`, `Date.now()` and the name
(bot.js line 339). -/
def tmpPath (now : Nat) (a : Attachment) : String :=
  "/tmp/cobot_" ++ toString now ++ "_" ++ a.name

/-- A `DownloadedAttachment` entry `{ type: 'file', path, displayName }`
(bot.js line 341). -/
structure Downloaded where
  path : String
  displayName : String
deriving DecidableEq

/-- The replies a message's processing can emit: a per-attachment
"too large" notice, the empty-response notice, the generic error apology,
or a response chunk. -/
inductive Reply where
  | tooLarge (text : String)
  | emptyNotice
  | apology
  | chunk (text : List Char)
deriving DecidableEq

/-- State accumulated by `downloadAttachments`: the collected results, the
replies sent so far, and the set (list) of temporary files existing on
disk. -/
structure DAState where
  results : List Downloaded
  replies : List Reply
  tempFiles : List String
deriving DecidableEq

/-- The body of the `for` loop of `downloadAttachments` for one attachment
(bot.js lines 328–346). -/
def daStep (cfg : BotConfig) (dlOk : Attachment → Bool) (now : Nat)
    (acc : DAState) (a : Attachment) : DAState :=
  if ¬ isImageAttachment a then acc
  else if maxBytes cfg < a.size then
    { acc with replies := acc.replies ++ [Reply.tooLarge (tooLargeNotice cfg a)] }
  else
    let acc2 := { acc with tempFiles := acc.tempFiles ++ [tmpPath now a] }
    if dlOk a then
      { acc2 with results := acc2.results ++ [⟨tmpPath now a, a.name⟩] }
    else acc2

/-- Embedding of `DiscordBot.downloadAttachments` (bot.js lines 322–349), with the
pre-existing temporary files `fs0` threaded through. -/
def downloadAttachments (cfg : BotConfig) (dlOk : Attachment → Bool) (now : Nat)
    (fs0 : List String) (atts : List Attachment) : DAState :=
  if ¬ cfg.imageSupport ∨ atts.isEmpty then ⟨[], [], fs0⟩
  else atts.foldl (daStep cfg dlOk now) ⟨[], [], fs0⟩

/-- The temporary paths whose files `downloadAttachments` creates: one per
image attachment within the size ceiling (created even when the transfer
fails, because the write stream is opened first). -/
def attemptedPaths (cfg : BotConfig) (now : Nat) (atts : List Attachment) : List String :=
  if ¬ cfg.imageSupport ∨ atts.isEmpty then []
  else (atts.filter (fun a => isImageAttachment a && !decide (maxBytes cfg < a.size))).map
    (tmpPath now)

/-- The completion call's possible outcomes in `processMessage`: the
context fetch or download stage rejects, `copilot.send` rejects, or it
resolves (the response text is the `content` parameter, possibly empty
after trimming); on the success path a reply send may itself reject after
`k` chunks went out. -/
inductive PMOutcome where
  | contextFail
  | sendFail
  | ok
  | replyFailAt (k : Nat)
deriving DecidableEq

/-- JavaScript `String.prototype.trim`. -/
def jsTrim (l : List Char) : List Char :=
  ((l.dropWhile jsWhitespace).reverse.dropWhile jsWhitespace).reverse

/-- The observable result of `processMessage`: the replies sent, in order,
and the temporary files existing afterwards. -/
structure PMState where
  replies : List Reply
  tempFiles : List String
deriving DecidableEq

/-- Embedding of `DiscordBot.processMessage` (bot.js lines 246–281).  The attachment
download always runs (even when the history fetch rejects, `Promise.all`
only rejects the combined promise; the already-started download still
creates its files).  Every failure is caught by the surrounding
`try`/`catch`, which sends one best-effort apology; an empty trimmed
response draws one notice; a successful response is chunked by
`splitMessage` and each chunk is sent as a reply.  No branch removes any
temporary file. -/
def processMessage (cfg : BotConfig) (dlOk : Attachment → Bool) (now : Nat)
    (atts : List Attachment) (out : PMOutcome) (content : List Char)
    (fs0 : List String) : PMState :=
  let dl := downloadAttachments cfg dlOk now fs0 atts
  match out with
  | .contextFail => { replies := dl.replies ++ [Reply.apology], tempFiles := dl.tempFiles }
  | .sendFail => { replies := dl.replies ++ [Reply.apology], tempFiles := dl.tempFiles }
  | .ok =>
    if jsTrim content = [] then
      { replies := dl.replies ++ [Reply.emptyNotice], tempFiles := dl.tempFiles }
    else
      { replies := dl.replies ++ (splitMessage (jsTrim content)).map Reply.chunk,
        tempFiles := dl.tempFiles }
  | .replyFailAt k =>
    if jsTrim content = [] then
      { replies := dl.replies ++ [Reply.emptyNotice], tempFiles := dl.tempFiles }
    else
      { replies := dl.replies
          ++ ((splitMessage (jsTrim content)).take k).map Reply.chunk
          ++ [Reply.apology],
        tempFiles := dl.tempFiles }

/-- Replies that report a failure of the message to the user: the generic
apology and the empty-response notice. -/
def isFailureReply : Reply → Bool
  | Reply.apology => true
  | Reply.emptyNotice => true
  | _ => false

/-! ## The per-channel queue dispatcher

`onMessage` (bot.js lines 215–229) pushes the message onto its channel's
queue and calls `processQueue`; `processQueue` (lines 231–244) returns at
once if the channel is already in `processingChannels`, otherwise marks it,
then repeatedly shifts the head message and `await`s its processing to
completion before looking at the queue again, and finally unmarks the
channel when the queue is empty.

Node's event loop is single threaded: the only suspension points are the
`await` of `processMessage` inside the drain loop.  The dispatcher for one
channel is therefore embedded as a transition system with two events, each
one synchronous block of the source:

* `enqueue m` — an `onMessage` call: push `m`, and if the channel is not
  draining, enter `processQueue` up to the first `await` (mark the channel,
  shift the head, begin processing it);
* `complete out` — the pending `await this.processMessage(...)` settles
  with outcome `out` (`processMessage` never rejects, and the `.catch` on
  the call logs and continues regardless): record the completed message,
  then either shift the next head and begin processing it, or, if the
  queue is empty, unmark the channel.

Ghost fields `started`, `processed`, `arrived` record the order in which
messages began processing, finished processing, and arrived. -/
/-- The dispatcher state of a single channel, with ghost history fields. -/
structure QState where
  queue : List Nat
  draining : Bool
  inFlight : List Nat
  started : List Nat
  processed : List Nat
  arrived : List Nat
deriving DecidableEq

/-- The two events the channel can experience. -/
inductive QEvent where
  | enqueue (m : Nat)
  | complete (out : PMOutcome)
deriving DecidableEq

/-- A channel before its first message: queue empty, not draining. -/
def qInit : QState := ⟨[], false, [], [], [], []⟩

/-- One synchronous step of the dispatcher (see the section comment). -/
def qstep (s : QState) (e : QEvent) : QState :=
  match e with
  | .enqueue m =>
    if s.draining then
      { s with queue := s.queue ++ [m], arrived := s.arrived ++ [m] }
    else
      match s.queue ++ [m] with
      | [] => { s with queue := [], arrived := s.arrived ++ [m], draining := false }
      | h :: t =>
        { s with queue := t, arrived := s.arrived ++ [m], draining := true,
                 inFlight := s.inFlight ++ [h], started := s.started ++ [h] }
  | .complete _ =>
    match s.inFlight with
    | [] => s
    | m :: rest =>
      match s.queue with
      | [] =>
        { s with inFlight := rest, processed := s.processed ++ [m], draining := false }
      | h :: t =>
        { s with inFlight := rest ++ [h], processed := s.processed ++ [m],
                 queue := t, started := s.started ++ [h] }

/-- Run the dispatcher from the initial state over a sequence of events. -/
def qrun (evs : List QEvent) : QState := evs.foldl qstep qInit

/-- The dispatcher invariant: arrival order decomposes into completed
messages, the (at most one) message being processed, and the waiting
queue, in that order; begin order equals completion order followed by the
in-flight message; an idle channel has nothing in flight and nothing
queued. -/
def QInv (s : QState) : Prop :=
  s.arrived = s.processed ++ s.inFlight ++ s.queue
  ∧ s.inFlight.length ≤ 1
  ∧ s.started = s.processed ++ s.inFlight
  ∧ (s.draining = false → s.inFlight = [] ∧ s.queue = [])

/-! ## Context assembler: the history-paging loop of `buildPrompt`

`buildPrompt` (bot.js lines 285–318): with `CONTEXT_MESSAGE_COUNT == 1` the
prompt is the message text and no fetch occurs; with `count == 0` the loop
`while (history.length < 1000)` fetches pages of `{ limit: 100 }` (with
`before: lastId` after the first page), concatenates each page, stops after
a page of fewer than 100 records, and otherwise continues from the last
record's id; with `count == N > 1` a single `{ limit: N }` fetch occurs.
The Discord API is the oracle `provider limit before`. -/
/-- A Discord message record as used by `buildPrompt`. -/
structure HistMsg where
  id : Nat
  authorUsername : String
  content : List Char
  createdTimestamp : Nat
deriving DecidableEq

instance : Inhabited HistMsg := ⟨⟨0, "", [], 0⟩⟩

/-- The `while (history.length < 1000)` loop of `buildPrompt` (bot.js lines
295–303), returning the collected history and the list of fetched pages.
The loop can iterate at most ten times from an empty history — each
continuing iteration requires a full page of 100 and `history.length <
1000` — so it is embedded with fuel; with `1000 ≤ history.length + 100 *
fuel` the fuel-exhausted case coincides with the loop's own exit and the
embedding is exact (`buildPromptPages` below passes fuel 11).
`batch[batch.length - 1]` is total here because the recursive call only
happens when the page has 100 records. -/
def fetchLoop : Nat → (Nat → Option Nat → List HistMsg) → List HistMsg → Option Nat →
    List HistMsg × List (List HistMsg)
  | 0, _, history, _ => (history, [])
  | fuel + 1, provider, history, lastId =>
    if history.length < 1000 then
      let batch := provider 100 lastId
      if batch.length < 100 then (history ++ batch, [batch])
      else
        let next := fetchLoop fuel provider (history ++ batch)
          (some (batch.getLast?.getD default).id)
        (next.1, batch :: next.2)
    else (history, [])

/-- The history collected by `buildPrompt` in `count == 0` mode, with the
pages it fetched. -/
def buildPromptPages (provider : Nat → Option Nat → List HistMsg) :
    List HistMsg × List (List HistMsg) :=
  fetchLoop 11 provider [] none

/-- Rendering `"<authorUsername>: <textContent>"` (bot.js line 312). -/
def renderMsg (m : HistMsg) : List Char :=
  m.authorUsername.toList ++ ':' :: ' ' :: m.content

/-- The history `buildPrompt` fetches for a given `CONTEXT_MESSAGE_COUNT`
(bot.js lines 289–307): none for `count = 1`, the paged loop for
`count = 0`, one bounded fetch otherwise. -/
def buildPromptHistory (count : Nat) (provider : Nat → Option Nat → List HistMsg) :
    List HistMsg :=
  if count = 1 then []
  else if count = 0 then (buildPromptPages provider).1
  else provider count none

/-- Embedding of `DiscordBot.buildPrompt` (bot.js lines 285–318): order the fetched
history (current message excluded) chronologically, render each record,
join with newlines, and append the current message's own rendering. -/
def buildPrompt (count : Nat) (provider : Nat → Option Nat → List HistMsg)
    (msg : HistMsg) : List Char :=
  if count = 1 then msg.content
  else
    let context := (((buildPromptHistory count provider).filter
        (fun m => m.id ≠ msg.id)).mergeSort
          (fun a b => a.createdTimestamp ≤ b.createdTimestamp)).map renderMsg
    let ctx := List.intercalate ['\n'] context
    if ctx = [] then msg.content else ctx ++ '\n' :: renderMsg msg

/-- A concrete history provider used to witness C8: every page it serves
has 40 records. -/
def shortPageProvider : Nat → Option Nat → List HistMsg :=
  fun _ _ => List.replicate 40 ⟨0, "u", [], 0⟩

/-! ## Completion invoker: model catalog and `setModel`

From `src/copilot.js`: the fixed `MODELS` catalog, `DEFAULT_MODEL`, the
`CopilotManager` state, `setModel` (validate against the catalog, then
assign `this.model`), and the request body of `_call`, whose `model` field
is whatever `this.model` holds at call time.  `setModel` is embedded as a
state transformer returning the new state and the error thrown, if any:
the assignment to `this.model` happens only after validation. -/
/-- One entry of the `MODELS` catalog. -/
structure ModelInfo where
  id : String
  label : String
  description : String
deriving DecidableEq

/-- The catalog `export const MODELS` (copilot.js lines 5–9). -/
def MODELS : List ModelInfo :=
  [⟨"gpt-5-mini", "ChatGPT 5 mini", "Latest mini model (gpt-5-mini)"⟩,
   ⟨"gpt-4.1", "ChatGPT 4.1", "Fast and capable (gpt-4.1)"⟩,
   ⟨"gpt-4o", "ChatGPT 4o", "Balanced general model (gpt-4o)"⟩]

/-- The default `export const DEFAULT_MODEL = 'gpt-4.1'` (copilot.js line 11). -/
def DEFAULT_MODEL : String := "gpt-4.1"

/-- The mutable state of a `CopilotManager` relevant to model selection. -/
structure CopilotState where
  token : String
  model : String
deriving DecidableEq

/-- Construction `new CopilotManager(token)` (copilot.js constructor). -/
def CopilotManager.init (token : String) : CopilotState := ⟨token, DEFAULT_MODEL⟩

/-- Embedding of `CopilotManager.setModel` (copilot.js lines 39–46 and 90–95): look the
identifier up in the catalog; if absent, throw `Unknown model "id"` leaving
`this.model` untouched; otherwise assign `this.model = modelId`.  Returned
as (state after the call, error thrown if any). -/
def setModel (s : CopilotState) (modelId : String) : CopilotState × Option String :=
  match MODELS.find? (fun m => m.id == modelId) with
  | none => (s, some ("Unknown model \"" ++ modelId ++ "\""))
  | some _ => ({ s with model := modelId }, none)

/-- The request body assembled by `_call` (copilot.js line 130):
`JSON.stringify({ model: this.model, messages })`. -/
structure ChatRequest where
  model : String
  messages : List String
deriving DecidableEq

/-- The body a `send` issued in state `s` puts on the wire. -/
def requestBody (s : CopilotState) (msgs : List String) : ChatRequest :=
  ⟨s.model, msgs⟩

/-! ## Theorems -/

/-! ## Lemmas about the chunker -/
theorem jsLastIndexOf_lt (c : Char) (l : List Char) :
    jsLastIndexOf c l < (l.length : Int) := by
  unfold jsLastIndexOf
  cases hfind : l.reverse.findIdx? (fun x => x == c) with
  | none => simp; omega
  | some j =>
    have hne : l ≠ [] := by
      intro h
      rw [h] at hfind
      simp at hfind
    have hlen : 0 < l.length := List.length_pos.mpr hne
    simp
    omega

theorem jsLastIndexOf_of_not_mem (c : Char) (l : List Char) (h : c ∉ l) :
    jsLastIndexOf c l = -1 := by
  unfold jsLastIndexOf
  have : l.reverse.findIdx? (fun x => x == c) = none := by
    rw [List.findIdx?_eq_none_iff]
    intro x hx
    simp only [beq_eq_false_iff_ne, ne_eq]
    intro hxc
    exact h (hxc ▸ List.mem_reverse.mp hx)
  rw [this]

/-- The branch structure of `splitChunk`, with the `let`s expanded. -/
theorem splitChunk_eq (remaining : List Char) :
    splitChunk remaining =
      if (DISCORD_MSG_LIMIT : Int) - 500 <
          max (jsLastIndexOf '\n' (remaining.take DISCORD_MSG_LIMIT))
              (jsLastIndexOf ' ' (remaining.take DISCORD_MSG_LIMIT)) then
        (remaining.take DISCORD_MSG_LIMIT).take
          (max (jsLastIndexOf '\n' (remaining.take DISCORD_MSG_LIMIT))
               (jsLastIndexOf ' ' (remaining.take DISCORD_MSG_LIMIT))).toNat
      else remaining.take DISCORD_MSG_LIMIT := rfl

theorem splitChunk_length_le (remaining : List Char) :
    (splitChunk remaining).length ≤ DISCORD_MSG_LIMIT := by
  rw [splitChunk_eq]
  split <;> simp [List.length_take]

theorem splitChunk_ne_nil (remaining : List Char) (h : remaining ≠ []) :
    splitChunk remaining ≠ [] := by
  have hlen : 0 < remaining.length := List.length_pos.mpr h
  rw [← List.length_pos, splitChunk_eq]
  split
  next hsplit =>
    simp only [List.length_take]
    simp only [DISCORD_MSG_LIMIT] at hsplit ⊢
    omega
  next =>
    simp only [List.length_take, DISCORD_MSG_LIMIT]
    omega

theorem take_own_length (l : List α) (n : Nat) :
    l.take ((l.take n).length) = l.take n := by
  rw [List.length_take]
  rcases Nat.le_total n l.length with h | h
  · rw [Nat.min_eq_left h]
  · rw [Nat.min_eq_right h, List.take_of_length_le h,
        List.take_of_length_le (le_refl _)]

theorem splitChunk_exists_take (remaining : List Char) :
    ∃ n, splitChunk remaining = remaining.take n := by
  rw [splitChunk_eq]
  split
  · exact ⟨_, List.take_take _ _ _⟩
  · exact ⟨DISCORD_MSG_LIMIT, rfl⟩

theorem splitChunk_eq_take (remaining : List Char) :
    splitChunk remaining = remaining.take (splitChunk remaining).length := by
  obtain ⟨n, hn⟩ := splitChunk_exists_take remaining
  conv_lhs => rw [hn]
  rw [hn, take_own_length]

theorem splitChunk_append_drop (remaining : List Char) :
    splitChunk remaining ++ remaining.drop (splitChunk remaining).length = remaining := by
  nth_rewrite 1 [splitChunk_eq_take remaining]
  exact List.take_append_drop _ _

theorem filter_dropWhile (q : Char → Bool) (l : List Char) :
    (l.dropWhile q).filter (fun c => !q c) = l.filter (fun c => !q c) := by
  induction l with
  | nil => rfl
  | cons a t ih =>
    by_cases hq : q a
    · rw [List.dropWhile_cons]
      simp only [hq, if_true]
      rw [ih, List.filter_cons]
      simp [hq]
    · rw [List.dropWhile_cons]
      simp [hq]

theorem splitChunk_length_ge (remaining : List Char) :
    min remaining.length (DISCORD_MSG_LIMIT - 499) ≤ (splitChunk remaining).length := by
  rw [splitChunk_eq]
  split
  next hsplit =>
    have h1 := jsLastIndexOf_lt '\n' (remaining.take DISCORD_MSG_LIMIT)
    have h2 := jsLastIndexOf_lt ' ' (remaining.take DISCORD_MSG_LIMIT)
    have hmax : max (jsLastIndexOf '\n' (remaining.take DISCORD_MSG_LIMIT))
        (jsLastIndexOf ' ' (remaining.take DISCORD_MSG_LIMIT))
        < ((remaining.take DISCORD_MSG_LIMIT).length : Int) := max_lt h1 h2
    simp only [List.length_take, DISCORD_MSG_LIMIT] at hsplit hmax ⊢
    omega
  next =>
    simp only [List.length_take, DISCORD_MSG_LIMIT]
    omega

theorem splitRest_length_add (remaining : List Char) :
    (splitRest remaining).length + min remaining.length (DISCORD_MSG_LIMIT - 499)
      ≤ remaining.length := by
  have hge := splitChunk_length_ge remaining
  have hle : (splitChunk remaining).length ≤ remaining.length := by
    rw [splitChunk_eq_take remaining, List.length_take]
    omega
  have hdw : (splitRest remaining).length
      ≤ (remaining.drop (splitChunk remaining).length).length :=
    (List.dropWhile_sublist _).length_le
  rw [List.length_drop] at hdw
  omega

theorem splitRest_length_lt (remaining : List Char) (h : remaining ≠ []) :
    (splitRest remaining).length < remaining.length := by
  have := splitRest_length_add remaining
  have hlen : 0 < remaining.length := List.length_pos.mpr h
  simp only [DISCORD_MSG_LIMIT] at this
  omega

theorem splitLoop_nil (fuel : Nat) : splitLoop fuel [] = [] := by
  cases fuel <;> simp [splitLoop]

theorem splitLoop_cons (fuel : Nat) (r : List Char) (h : r ≠ []) (hfuel : 0 < fuel) :
    splitLoop fuel r = splitChunk r :: splitLoop (fuel - 1) (splitRest r) := by
  cases fuel with
  | zero => omega
  | succ n => simp [splitLoop, h]

theorem splitLoop_mem_bounds :
    ∀ (fuel : Nat) (r : List Char), r.length ≤ fuel →
      ∀ ch ∈ splitLoop fuel r, ch.length ≤ DISCORD_MSG_LIMIT ∧ ch ≠ [] := by
  intro fuel
  induction fuel with
  | zero =>
    intro r _ ch hch
    simp [splitLoop] at hch
  | succ n ih =>
    intro r hr ch hch
    by_cases h : r = []
    · rw [h, splitLoop_nil] at hch
      simp at hch
    · rw [splitLoop_cons _ _ h (Nat.succ_pos n)] at hch
      rcases List.mem_cons.mp hch with h1 | h1
      · exact h1 ▸ ⟨splitChunk_length_le r, splitChunk_ne_nil r h⟩
      · have hlt := splitRest_length_lt r h
        exact ih (splitRest r) (by omega) ch (by simpa using h1)

theorem splitLoop_count :
    ∀ (fuel : Nat) (r : List Char), r.length ≤ fuel →
      (splitLoop fuel r).length * (DISCORD_MSG_LIMIT - 499)
        ≤ r.length + (DISCORD_MSG_LIMIT - 500) := by
  intro fuel
  induction fuel with
  | zero =>
    intro r hr
    simp only [splitLoop, List.length_nil, DISCORD_MSG_LIMIT]
    omega
  | succ n ih =>
    intro r hr
    by_cases h : r = []
    · rw [h, splitLoop_nil]
      simp only [List.length_nil, DISCORD_MSG_LIMIT]
      omega
    · rw [splitLoop_cons _ _ h (Nat.succ_pos n)]
      simp only [Nat.succ_sub_one]
      have hlt := splitRest_length_lt r h
      have hadd := splitRest_length_add r
      have hpos : 0 < r.length := List.length_pos.mpr h
      have hih := ih (splitRest r) (by omega)
      simp only [List.length_cons, DISCORD_MSG_LIMIT] at hih hadd ⊢
      omega

theorem splitLoop_flatten_filter :
    ∀ (fuel : Nat) (r : List Char), r.length ≤ fuel →
      (splitLoop fuel r).flatten.filter (fun c => !jsWhitespace c)
        = r.filter (fun c => !jsWhitespace c) := by
  intro fuel
  induction fuel with
  | zero =>
    intro r hr
    have : r = [] := by
      cases r with
      | nil => rfl
      | cons a t => simp at hr
    rw [this, splitLoop_nil]
    rfl
  | succ n ih =>
    intro r hr
    by_cases h : r = []
    · rw [h, splitLoop_nil]
      rfl
    · rw [splitLoop_cons _ _ h (Nat.succ_pos n), List.flatten_cons, List.filter_append]
      simp only [Nat.succ_sub_one]
      have hlt := splitRest_length_lt r h
      rw [ih (splitRest r) (by omega)]
      have hrest : (splitRest r).filter (fun c => !jsWhitespace c)
          = (r.drop (splitChunk r).length).filter (fun c => !jsWhitespace c) :=
        filter_dropWhile jsWhitespace (r.drop (splitChunk r).length)
      rw [hrest, ← List.filter_append, splitChunk_append_drop]

/-! ## The hard-cut (no whitespace) behaviour of the chunker -/
theorem splitChunk_of_no_boundary (r : List Char) (h1 : '\n' ∉ r) (h2 : ' ' ∉ r) :
    splitChunk r = r.take DISCORD_MSG_LIMIT := by
  rw [splitChunk_eq]
  have e1 : jsLastIndexOf '\n' (r.take DISCORD_MSG_LIMIT) = -1 :=
    jsLastIndexOf_of_not_mem _ _ (fun hm => h1 (List.mem_of_mem_take hm))
  have e2 : jsLastIndexOf ' ' (r.take DISCORD_MSG_LIMIT) = -1 :=
    jsLastIndexOf_of_not_mem _ _ (fun hm => h2 (List.mem_of_mem_take hm))
  rw [e1, e2]
  norm_num [DISCORD_MSG_LIMIT]

theorem splitChunk_of_all_not_ws (r : List Char)
    (h : ∀ c ∈ r, jsWhitespace c = false) :
    splitChunk r = r.take DISCORD_MSG_LIMIT :=
  splitChunk_of_no_boundary r
    (fun hm => absurd (h '\n' hm) (by decide))
    (fun hm => absurd (h ' ' hm) (by decide))

theorem drop_own_take_length (l : List Char) (n : Nat) :
    l.drop ((l.take n).length) = l.drop n := by
  rw [List.length_take]
  rcases Nat.le_total n l.length with h | h
  · rw [Nat.min_eq_left h]
  · rw [Nat.min_eq_right h, List.drop_eq_nil_of_le (le_refl _),
        List.drop_eq_nil_of_le h]

theorem splitRest_of_all_not_ws (r : List Char)
    (h : ∀ c ∈ r, jsWhitespace c = false) :
    splitRest r = r.drop DISCORD_MSG_LIMIT := by
  unfold splitRest
  rw [splitChunk_of_all_not_ws r h, drop_own_take_length]
  cases hr : r.drop DISCORD_MSG_LIMIT with
  | nil => simp
  | cons a t =>
    have ha : jsWhitespace a = false := by
      refine h a (List.mem_of_mem_drop (n := DISCORD_MSG_LIMIT) ?_)
      rw [hr]
      exact List.mem_cons_self a t
    rw [List.dropWhile_cons, ha]
    simp

theorem splitLoop_no_ws_spec :
    ∀ (fuel : Nat) (r : List Char), r.length ≤ fuel →
      (∀ c ∈ r, jsWhitespace c = false) →
      (splitLoop fuel r).length
          = (r.length + (DISCORD_MSG_LIMIT - 1)) / DISCORD_MSG_LIMIT ∧
      ∀ ch ∈ (splitLoop fuel r).dropLast, ch.length = DISCORD_MSG_LIMIT := by
  intro fuel
  induction fuel with
  | zero =>
    intro r hr _
    have : r = [] := by
      cases r with
      | nil => rfl
      | cons a t => simp at hr
    rw [this, splitLoop_nil]
    refine ⟨by norm_num [DISCORD_MSG_LIMIT], by simp⟩
  | succ n ih =>
    intro r hr hws
    by_cases h : r = []
    · rw [h, splitLoop_nil]
      refine ⟨by norm_num [DISCORD_MSG_LIMIT], by simp⟩
    · have hpos : 0 < r.length := List.length_pos.mpr h
      rw [splitLoop_cons _ _ h (Nat.succ_pos n), splitChunk_of_all_not_ws r hws,
          splitRest_of_all_not_ws r hws]
      have hws' : ∀ c ∈ r.drop DISCORD_MSG_LIMIT, jsWhitespace c = false :=
        fun c hc => hws c (List.mem_of_mem_drop hc)
      have hdl : (r.drop DISCORD_MSG_LIMIT).length = r.length - DISCORD_MSG_LIMIT :=
        List.length_drop _ _
      obtain ⟨ihc, ihd⟩ := ih (r.drop DISCORD_MSG_LIMIT)
        (by rw [hdl]; simp only [DISCORD_MSG_LIMIT]; omega) hws'
      constructor
      · rw [List.length_cons]
        simp only [Nat.succ_sub_one]
        rw [ihc, hdl]
        simp only [DISCORD_MSG_LIMIT]
        omega
      · intro ch hch
        simp only [Nat.succ_sub_one] at hch
        by_cases hrest : splitLoop n (r.drop DISCORD_MSG_LIMIT) = []
        · rw [hrest] at hch
          simp at hch
        · rw [List.dropLast_cons_of_ne_nil hrest] at hch
          rcases List.mem_cons.mp hch with h1 | h1
          · have hdne : r.drop DISCORD_MSG_LIMIT ≠ [] := by
              intro hnil
              rw [hnil, splitLoop_nil] at hrest
              exact hrest rfl
            have : DISCORD_MSG_LIMIT < r.length := by
              have := List.length_pos.mpr hdne
              omega
            rw [h1, List.length_take]
            omega
          · exact ihd ch h1

theorem wsTokens_nil : wsTokens [] = [] := by rw [wsTokens]

theorem takeWhile_append_all {p : Char → Bool} :
    ∀ (A X : List Char), (∀ c ∈ A, p c = true) →
      (A ++ X).takeWhile p = A ++ X.takeWhile p := by
  intro A
  induction A with
  | nil => intro X _; simp
  | cons a t ih =>
    intro X h
    have ha : p a = true := h a (List.mem_cons_self a t)
    rw [List.cons_append, List.takeWhile_cons, ha]
    simp only [if_true]
    rw [ih X (fun c hc => h c (List.mem_cons_of_mem a hc))]
    rfl

theorem dropWhile_append_all {p : Char → Bool} :
    ∀ (A X : List Char), (∀ c ∈ A, p c = true) →
      (A ++ X).dropWhile p = X.dropWhile p := by
  intro A
  induction A with
  | nil => intro X _; simp
  | cons a t ih =>
    intro X h
    have ha : p a = true := h a (List.mem_cons_self a t)
    rw [List.cons_append, List.dropWhile_cons, ha]
    simp only [if_true]
    exact ih X (fun c hc => h c (List.mem_cons_of_mem a hc))

theorem takeWhile_all {p : Char → Bool} (A : List Char)
    (h : ∀ c ∈ A, p c = true) : A.takeWhile p = A := by
  have := takeWhile_append_all A [] h
  simpa using this

theorem dropWhile_all {p : Char → Bool} (A : List Char)
    (h : ∀ c ∈ A, p c = true) : A.dropWhile p = [] := by
  have := dropWhile_append_all A [] h
  simpa using this

theorem wsTokens_all_not_ws (A : List Char) (hne : A ≠ [])
    (h : ∀ c ∈ A, jsWhitespace c = false) : wsTokens A = [A] := by
  cases A with
  | nil => exact absurd rfl hne
  | cons c t =>
    have hc : jsWhitespace c = false := h c (List.mem_cons_self c t)
    rw [wsTokens]
    simp only [hc, Bool.false_eq_true, if_false]
    rw [takeWhile_all (c :: t) (fun x hx => by rw [h x hx]; rfl),
        dropWhile_all t (fun x hx => by rw [h x (List.mem_cons_of_mem c hx)]; rfl),
        wsTokens_nil]

theorem wsTokens_sep (A B : List Char) (hA : A ≠ []) (hB : B ≠ [])
    (hA2 : ∀ c ∈ A, jsWhitespace c = false)
    (hB2 : ∀ c ∈ B, jsWhitespace c = false) :
    wsTokens (A ++ ' ' :: B) = [A, B] := by
  cases A with
  | nil => exact absurd rfl hA
  | cons c t =>
    have hc : jsWhitespace c = false := hA2 c (List.mem_cons_self c t)
    rw [List.cons_append, wsTokens]
    simp only [hc, Bool.false_eq_true, if_false]
    have htail : ∀ x ∈ t, (!jsWhitespace x) = true :=
      fun x hx => by rw [hA2 x (List.mem_cons_of_mem c hx)]; rfl
    have htake : (c :: (t ++ ' ' :: B)).takeWhile (fun x => !jsWhitespace x)
        = c :: t := by
      rw [← List.cons_append, takeWhile_append_all (c :: t) (' ' :: B)
            (fun x hx => by rw [hA2 x hx]; rfl)]
      rw [List.takeWhile_cons]
      norm_num [jsWhitespace, jsWhitespaceChars]
    have hdrop : (t ++ ' ' :: B).dropWhile (fun x => !jsWhitespace x)
        = ' ' :: B := by
      rw [dropWhile_append_all t (' ' :: B) htail, List.dropWhile_cons]
      norm_num [jsWhitespace, jsWhitespaceChars]
    rw [htake, hdrop, wsTokens]
    have : jsWhitespace ' ' = true := by decide
    simp only [this, if_true]
    rw [wsTokens_all_not_ws B hB hB2]

/-! ## Concrete chunker evaluations (computed by the lemmas above, not by
kernel reduction, because the inputs have over 2000 characters) -/
theorem splitMessage_repl_a :
    splitMessage (List.replicate 2001 'a') = [List.replicate 2000 'a', ['a']] := by
  have hws : ∀ c ∈ List.replicate 2001 'a', jsWhitespace c = false := by
    intro c hc
    rw [List.eq_of_mem_replicate hc]
    decide
  have hlen : (List.replicate 2001 'a').length = 2001 := List.length_replicate _ _
  have h1 : splitChunk (List.replicate 2001 'a') = List.replicate 2000 'a' := by
    rw [splitChunk_of_all_not_ws _ hws, List.take_replicate]
    norm_num [DISCORD_MSG_LIMIT]
  have h2 : splitRest (List.replicate 2001 'a') = ['a'] := by
    rw [splitRest_of_all_not_ws _ hws, List.drop_replicate]
    norm_num [DISCORD_MSG_LIMIT]
  have hne : List.replicate 2001 'a' ≠ [] := by
    rw [← List.length_pos, hlen]
    norm_num
  rw [splitMessage, if_neg (by rw [hlen]; norm_num [DISCORD_MSG_LIMIT]), hlen,
      splitLoop_cons 2001 _ hne (by norm_num), h1, h2]
  have hws1 : ∀ c ∈ ['a'], jsWhitespace c = false := by
    intro c hc
    simp at hc
    rw [hc]
    decide
  rw [splitLoop_cons 2000 ['a'] (by simp) (by norm_num),
      splitChunk_of_all_not_ws _ hws1, splitRest_of_all_not_ws _ hws1]
  norm_num [DISCORD_MSG_LIMIT, splitLoop_nil]

theorem splitMessage_repl_tab :
    splitMessage (List.replicate 2001 '\t') = [List.replicate 2000 '\t'] := by
  have hws : ∀ c ∈ List.replicate 2001 '\t', jsWhitespace c = false → False := by
    intro c hc
    rw [List.eq_of_mem_replicate hc]
    decide
  have hnb1 : '\n' ∉ List.replicate 2001 '\t' := by
    rw [List.mem_replicate]
    rintro ⟨-, h⟩
    exact absurd h (by decide)
  have hnb2 : ' ' ∉ List.replicate 2001 '\t' := by
    rw [List.mem_replicate]
    rintro ⟨-, h⟩
    exact absurd h (by decide)
  have hlen : (List.replicate 2001 '\t').length = 2001 := List.length_replicate _ _
  have h1 : splitChunk (List.replicate 2001 '\t') = List.replicate 2000 '\t' := by
    rw [splitChunk_of_no_boundary _ hnb1 hnb2, List.take_replicate]
    norm_num [DISCORD_MSG_LIMIT]
  have h2 : splitRest (List.replicate 2001 '\t') = [] := by
    rw [splitRest]
    rw [h1, List.length_replicate, List.drop_replicate]
    norm_num [DISCORD_MSG_LIMIT]
    decide
  have hne : List.replicate 2001 '\t' ≠ [] := by
    rw [← List.length_pos, hlen]
    norm_num
  rw [splitMessage, if_neg (by rw [hlen]; norm_num [DISCORD_MSG_LIMIT]), hlen,
      splitLoop_cons 2001 _ hne (by norm_num), h1, h2, splitLoop_nil]

/-! ## Claims C4, C5, C6, C10 about the reply chunker -/
/-- C4: for any text of length at most the limit, `splitMessage` returns
exactly one chunk equal to the input; for any text of length greater than
the limit, every returned chunk has length at most the limit and is
non-empty. -/
theorem splitMessage_short_id_and_chunk_bounds (content : List Char) :
    (content.length ≤ DISCORD_MSG_LIMIT → splitMessage content = [content]) ∧
    (DISCORD_MSG_LIMIT < content.length →
      (splitMessage content).all
        (fun ch => decide (ch.length ≤ DISCORD_MSG_LIMIT) && !ch.isEmpty) = true) := by
  constructor
  · intro h
    rw [splitMessage, if_pos h]
  · intro h
    rw [List.all_eq_true]
    intro ch hch
    rw [splitMessage, if_neg (by omega)] at hch
    have hb := splitLoop_mem_bounds content.length content (le_refl _) ch hch
    simp only [Bool.and_eq_true, decide_eq_true_eq, Bool.not_eq_true', ← Bool.not_eq_true,
      List.isEmpty_iff]
    exact ⟨hb.1, hb.2⟩

/-- Witness for C4 at two concrete inputs: a 5-character text is returned
unchanged, and for a 2001-character text every chunk is within bounds. -/
theorem splitMessage_short_id_and_chunk_bounds_witness :
    ((List.replicate 5 'a').length ≤ DISCORD_MSG_LIMIT
      ∧ splitMessage (List.replicate 5 'a') = [List.replicate 5 'a']) ∧
    (DISCORD_MSG_LIMIT < (List.replicate 2001 'a').length
      ∧ (splitMessage (List.replicate 2001 'a')).all
          (fun ch => decide (ch.length ≤ DISCORD_MSG_LIMIT) && !ch.isEmpty) = true) := by
  have hshort : (List.replicate 5 'a').length ≤ DISCORD_MSG_LIMIT := by
    rw [List.length_replicate]
    norm_num [DISCORD_MSG_LIMIT]
  have hlong : DISCORD_MSG_LIMIT < (List.replicate 2001 'a').length := by
    rw [List.length_replicate]
    norm_num [DISCORD_MSG_LIMIT]
  exact ⟨⟨hshort, (splitMessage_short_id_and_chunk_bounds _).1 hshort⟩,
         ⟨hlong, (splitMessage_short_id_and_chunk_bounds _).2 hlong⟩⟩

/-- C5 (amended): concatenating the chunks of `splitMessage content`
preserves exactly the non-whitespace characters of `content`, in order —
nothing is dropped or duplicated; the only characters of the original
missing from the concatenation are whitespace characters at chunk
boundaries.  (The original claim — that re-joining the chunks with single
separators and normalizing whitespace reproduces the normalized original —
fails when a hard cut lands inside a token; see
`splitMessage_rejoin_changes_tokens`.) -/
theorem splitMessage_flatten_filter (content : List Char) :
    (splitMessage content).flatten.filter (fun c => !jsWhitespace c)
      = content.filter (fun c => !jsWhitespace c) := by
  by_cases h : content.length ≤ DISCORD_MSG_LIMIT
  · rw [splitMessage, if_pos h]
    simp
  · rw [splitMessage, if_neg h]
    exact splitLoop_flatten_filter content.length content (le_refl _)

/-- Counterexample to C5 as stated: for a run of 2001 letters `a`, the
chunker hard-cuts mid-token, so re-joining the two chunks with a single
separator and normalizing whitespace yields a two-token text, while the
whitespace-normalized original is a single token. -/
theorem splitMessage_rejoin_changes_tokens :
    normalizeWs (joinSep (splitMessage (List.replicate 2001 'a')))
      ≠ normalizeWs (List.replicate 2001 'a') := by
  have hwsA : ∀ c ∈ List.replicate 2000 'a', jsWhitespace c = false := by
    intro c hc
    rw [List.eq_of_mem_replicate hc]
    decide
  have hwsB : ∀ c ∈ ['a'], jsWhitespace c = false := by
    intro c hc
    simp at hc
    rw [hc]
    decide
  have hwsR : ∀ c ∈ List.replicate 2001 'a', jsWhitespace c = false := by
    intro c hc
    rw [List.eq_of_mem_replicate hc]
    decide
  have hAne : List.replicate 2000 'a' ≠ [] := by
    rw [← List.length_pos, List.length_replicate]
    norm_num
  have hRne : List.replicate 2001 'a' ≠ [] := by
    rw [← List.length_pos, List.length_replicate]
    norm_num
  have hjoin_pair : ∀ A B : List Char, joinSep [A, B] = A ++ ' ' :: B :=
    fun A B => rfl
  have hjoin_single : ∀ A : List Char, joinSep [A] = A := fun A => rfl
  rw [splitMessage_repl_a, hjoin_pair, normalizeWs, normalizeWs,
      wsTokens_sep _ _ hAne (by simp) hwsA hwsB,
      wsTokens_all_not_ws _ hRne hwsR, hjoin_pair, hjoin_single]
  intro heq
  have hlen := congrArg List.length heq
  simp only [List.length_append, List.length_cons, List.length_replicate,
    List.length_nil] at hlen
  omega

/-- C6 (amended): a text longer than the limit that contains no whitespace
character at all is hard-cut into `ceil(length / limit)` chunks, each of
length at most the limit, and all chunks except possibly the last have
length exactly the limit.  (The original claim assumed only that the text
has no newline and no space; it fails for a run of tabs, which `trimStart`
swallows between iterations — see `splitMessage_tab_run_chunk_count`.) -/
theorem splitMessage_hard_cut (content : List Char)
    (h : DISCORD_MSG_LIMIT < content.length)
    (hws : ∀ c ∈ content, jsWhitespace c = false) :
    (splitMessage content).length
        = (content.length + (DISCORD_MSG_LIMIT - 1)) / DISCORD_MSG_LIMIT ∧
    (splitMessage content).all (fun ch => decide (ch.length ≤ DISCORD_MSG_LIMIT)) = true ∧
    (splitMessage content).dropLast.all (fun ch => ch.length == DISCORD_MSG_LIMIT) = true := by
  rw [splitMessage, if_neg (by omega)]
  obtain ⟨hcount, hfull⟩ := splitLoop_no_ws_spec content.length content (le_refl _) hws
  refine ⟨hcount, ?_, ?_⟩
  · rw [List.all_eq_true]
    intro ch hch
    have hb := splitLoop_mem_bounds content.length content (le_refl _) ch hch
    simp only [decide_eq_true_eq]
    exact hb.1
  · rw [List.all_eq_true]
    intro ch hch
    have := hfull ch hch
    simp only [beq_iff_eq]
    exact this

/-- Witness for C6 (amended) at the 2001-character run of `a`. -/
theorem splitMessage_hard_cut_witness :
    (DISCORD_MSG_LIMIT < (List.replicate 2001 'a').length
      ∧ (∀ c ∈ List.replicate 2001 'a', jsWhitespace c = false))
    ∧ ((splitMessage (List.replicate 2001 'a')).length
        = ((List.replicate 2001 'a').length + (DISCORD_MSG_LIMIT - 1)) / DISCORD_MSG_LIMIT
      ∧ (splitMessage (List.replicate 2001 'a')).all
          (fun ch => decide (ch.length ≤ DISCORD_MSG_LIMIT)) = true
      ∧ (splitMessage (List.replicate 2001 'a')).dropLast.all
          (fun ch => ch.length == DISCORD_MSG_LIMIT) = true) := by
  have h1 : DISCORD_MSG_LIMIT < (List.replicate 2001 'a').length := by
    rw [List.length_replicate]
    norm_num [DISCORD_MSG_LIMIT]
  have h2 : ∀ c ∈ List.replicate 2001 'a', jsWhitespace c = false := by
    intro c hc
    rw [List.eq_of_mem_replicate hc]
    decide
  exact ⟨⟨h1, h2⟩, splitMessage_hard_cut _ h1 h2⟩

/-- Counterexample to C6 as stated: a run of 2001 tabs contains no newline
and no space and is longer than the limit, yet `splitMessage` produces a
single chunk, not `ceil(2001 / 2000) = 2` chunks: the hard cut leaves one
tab, which `trimStart` then removes. -/
theorem splitMessage_tab_run_chunk_count :
    (List.replicate 2001 '\t').all (fun c => !(c == '\n') && !(c == ' ')) = true
    ∧ DISCORD_MSG_LIMIT < (List.replicate 2001 '\t').length
    ∧ (splitMessage (List.replicate 2001 '\t')).length = 1
    ∧ ((List.replicate 2001 '\t').length + (DISCORD_MSG_LIMIT - 1)) / DISCORD_MSG_LIMIT
        = 2 := by
  refine ⟨?_, ?_, ?_, ?_⟩
  · rw [List.all_eq_true]
    intro c hc
    rw [List.eq_of_mem_replicate hc]
    decide
  · rw [List.length_replicate]
    norm_num [DISCORD_MSG_LIMIT]
  · rw [splitMessage_repl_tab]
    rfl
  · rw [List.length_replicate]
    norm_num [DISCORD_MSG_LIMIT]

/-- C10: for any text longer than the limit, the chunking loop terminates
with every emitted chunk non-empty, and — because backward-boundary
truncation applies only at indices above `limit - 500`, so each iteration
consumes at least `limit - 499 = 1501` characters (or the whole remainder)
— the number of chunks is bounded by `ceil(length / 1501)`, expressed here
as `count * 1501 ≤ length + 1500`.  The per-iteration consumption bound is
`splitRest_length_add`. -/
theorem splitMessage_terminates_nonempty_bound (content : List Char)
    (h : DISCORD_MSG_LIMIT < content.length) :
    (splitMessage content).all (fun ch => !ch.isEmpty) = true ∧
    (splitMessage content).length * (DISCORD_MSG_LIMIT - 499)
      ≤ content.length + (DISCORD_MSG_LIMIT - 500) := by
  rw [splitMessage, if_neg (by omega)]
  constructor
  · rw [List.all_eq_true]
    intro ch hch
    have hb := splitLoop_mem_bounds content.length content (le_refl _) ch hch
    simp only [Bool.not_eq_true', ← Bool.not_eq_true, List.isEmpty_iff]
    exact hb.2
  · exact splitLoop_count content.length content (le_refl _)

/-- Witness for C10 at the 2001-character run of `a`. -/
theorem splitMessage_terminates_nonempty_bound_witness :
    DISCORD_MSG_LIMIT < (List.replicate 2001 'a').length
    ∧ ((splitMessage (List.replicate 2001 'a')).all (fun ch => !ch.isEmpty) = true
      ∧ (splitMessage (List.replicate 2001 'a')).length * (DISCORD_MSG_LIMIT - 499)
          ≤ (List.replicate 2001 'a').length + (DISCORD_MSG_LIMIT - 500)) := by
  have h1 : DISCORD_MSG_LIMIT < (List.replicate 2001 'a').length := by
    rw [List.length_replicate]
    norm_num [DISCORD_MSG_LIMIT]
  exact ⟨h1, splitMessage_terminates_nonempty_bound _ h1⟩

/-! ## Characterization of the attachment fetcher -/
theorem foldl_daStep_spec (cfg : BotConfig) (dlOk : Attachment → Bool) (now : Nat) :
    ∀ (atts : List Attachment) (acc : DAState),
      atts.foldl (daStep cfg dlOk now) acc =
        { results := acc.results
            ++ (atts.filter (fun a => isImageAttachment a
                  && !decide (maxBytes cfg < a.size) && dlOk a)).map
                (fun a => ⟨tmpPath now a, a.name⟩),
          replies := acc.replies
            ++ (atts.filter (fun a => isImageAttachment a
                  && decide (maxBytes cfg < a.size))).map
                (fun a => Reply.tooLarge (tooLargeNotice cfg a)),
          tempFiles := acc.tempFiles
            ++ (atts.filter (fun a => isImageAttachment a
                  && !decide (maxBytes cfg < a.size))).map (tmpPath now) } := by
  intro atts
  induction atts with
  | nil =>
    intro acc
    simp
  | cons a t ih =>
    intro acc
    rw [List.foldl_cons, ih]
    by_cases h1 : isImageAttachment a
    · by_cases h2 : maxBytes cfg < a.size
      · simp [daStep, h1, h2, List.filter_cons]
      · by_cases h3 : dlOk a
        · simp [daStep, h1, h2, h3, List.filter_cons]
        · simp [daStep, h1, h2, h3, List.filter_cons]
    · simp [daStep, h1, List.filter_cons]

theorem downloadAttachments_tempFiles (cfg : BotConfig) (dlOk : Attachment → Bool)
    (now : Nat) (fs0 : List String) (atts : List Attachment) :
    (downloadAttachments cfg dlOk now fs0 atts).tempFiles
      = fs0 ++ attemptedPaths cfg now atts := by
  rw [downloadAttachments, attemptedPaths]
  by_cases h : ¬ cfg.imageSupport ∨ atts.isEmpty
  · rw [if_pos h, if_pos h]
    simp
  · rw [if_neg h, if_neg h, foldl_daStep_spec]

theorem downloadAttachments_replies_countP (cfg : BotConfig) (dlOk : Attachment → Bool)
    (now : Nat) (fs0 : List String) (atts : List Attachment) :
    (downloadAttachments cfg dlOk now fs0 atts).replies.countP isFailureReply = 0 := by
  rw [downloadAttachments]
  by_cases h : ¬ cfg.imageSupport ∨ atts.isEmpty
  · rw [if_pos h]
    rfl
  · rw [if_neg h, foldl_daStep_spec]
    simp only [List.nil_append]
    rw [List.countP_eq_zero]
    intro r hr
    obtain ⟨a, _, ha⟩ := List.mem_map.mp hr
    rw [← ha]
    simp [isFailureReply]

/-! ## Claim C7 -/
/-- C7 (amended): when image forwarding is enabled, the fetcher's replies
are exactly one "too large" notice (naming the file and the ceiling) per
image attachment whose declared size exceeds the ceiling, in order; such
an attachment is never downloaded (no temporary file, no result entry),
while the remaining image attachments are still downloaded, and the
fetcher returns normally so the message's prompt still goes to the
completion invoker.  (As literally stated the claim is false: an attachment
whose content type is not `image/…` is skipped silently before the size
check, so an oversized non-image draws no notice — see
`downloadAttachments_nonimage_no_notice`.) -/
theorem downloadAttachments_too_large (cfg : BotConfig) (dlOk : Attachment → Bool)
    (now : Nat) (fs0 : List String) (atts : List Attachment)
    (himg : cfg.imageSupport = true) :
    (downloadAttachments cfg dlOk now fs0 atts).replies
      = (atts.filter (fun a => isImageAttachment a
            && decide (maxBytes cfg < a.size))).map
          (fun a => Reply.tooLarge (tooLargeNotice cfg a))
    ∧ (downloadAttachments cfg dlOk now fs0 atts).tempFiles
      = fs0 ++ (atts.filter (fun a => isImageAttachment a
            && !decide (maxBytes cfg < a.size))).map (tmpPath now)
    ∧ (downloadAttachments cfg dlOk now fs0 atts).results
      = (atts.filter (fun a => isImageAttachment a
            && !decide (maxBytes cfg < a.size) && dlOk a)).map
          (fun a => ⟨tmpPath now a, a.name⟩) := by
  cases atts with
  | nil =>
    simp [downloadAttachments]
  | cons a t =>
    rw [downloadAttachments, if_neg (by simp [himg]), foldl_daStep_spec]
    simp

/-- Witness for C7 (amended): one oversized image, one small image.  The
oversized one draws exactly its notice and no temporary file; the small one
is downloaded. -/
theorem downloadAttachments_too_large_witness :
    (BotConfig.mk true 5).imageSupport = true
    ∧ (downloadAttachments ⟨true, 5⟩ (fun _ => true) 7 []
          [⟨"big.png", some "image/png", 6291456, "u1"⟩,
           ⟨"ok.png", some "image/png", 1000, "u2"⟩]).replies
        = [Reply.tooLarge (tooLargeNotice ⟨true, 5⟩ ⟨"big.png", some "image/png", 6291456, "u1"⟩)]
    ∧ (downloadAttachments ⟨true, 5⟩ (fun _ => true) 7 []
          [⟨"big.png", some "image/png", 6291456, "u1"⟩,
           ⟨"ok.png", some "image/png", 1000, "u2"⟩]).tempFiles
        = [tmpPath 7 ⟨"ok.png", some "image/png", 1000, "u2"⟩] := by
  have h := downloadAttachments_too_large ⟨true, 5⟩ (fun _ => true) 7 []
    [⟨"big.png", some "image/png", 6291456, "u1"⟩,
     ⟨"ok.png", some "image/png", 1000, "u2"⟩] rfl
  refine ⟨rfl, ?_, ?_⟩
  · rw [h.1]
    decide
  · rw [h.2.1]
    decide

/-- Counterexample to C7 as stated: an oversized attachment whose declared
content type is not an image draws no "too large" notice at all — it is
skipped silently before the size check. -/
theorem downloadAttachments_nonimage_no_notice :
    maxBytes ⟨true, 5⟩ < (Attachment.mk "big.zip" (some "application/zip") 6291456 "u").size
    ∧ (downloadAttachments ⟨true, 5⟩ (fun _ => true) 0 []
        [⟨"big.zip", some "application/zip", 6291456, "u"⟩]).replies = [] := by
  constructor
  · decide
  · decide

/-! ## Claim C1 -/
/-- C1 (amended): `processMessage` never reclaims temporary storage: on
every exit path — success, completion-service error, empty response,
context failure, reply failure — the temporary files after the call are
exactly the files before it plus the files downloaded for the message's
attachments; no removal ever occurs.  (The claim as stated — that the
temporary files after equal the files before — is false whenever at least
one attachment is downloaded; see `processMessage_leaks_temp_files`.) -/
theorem processMessage_tempFiles (cfg : BotConfig) (dlOk : Attachment → Bool)
    (now : Nat) (atts : List Attachment) (out : PMOutcome) (content : List Char)
    (fs0 : List String) :
    (processMessage cfg dlOk now atts out content fs0).tempFiles
      = fs0 ++ attemptedPaths cfg now atts := by
  have h := downloadAttachments_tempFiles cfg dlOk now fs0 atts
  cases out with
  | contextFail => exact h
  | sendFail => exact h
  | ok =>
    rw [processMessage]
    split <;> exact h
  | replyFailAt k =>
    rw [processMessage]
    split <;> exact h

/-- Counterexample to C1 as stated: a message with one downloadable image
attachment whose completion call succeeds leaves its downloaded temporary
file on disk, so the set of temporary files after `processMessage` differs
from the set before. -/
theorem processMessage_leaks_temp_files :
    (downloadAttachments ⟨true, 5⟩ (fun _ => true) 0 []
        [⟨"cat.png", some "image/png", 1000, "u"⟩]).results.length = 1
    ∧ (processMessage ⟨true, 5⟩ (fun _ => true) 0
        [⟨"cat.png", some "image/png", 1000, "u"⟩] PMOutcome.ok
        ['h', 'i'] []).tempFiles ≠ [] := by
  constructor
  · decide
  · decide

theorem qInit_inv : QInv qInit := by
  refine ⟨rfl, by simp [qInit], rfl, fun _ => ⟨rfl, rfl⟩⟩

theorem qstep_inv (s : QState) (e : QEvent) (h : QInv s) : QInv (qstep s e) := by
  obtain ⟨h1, h2, h3, h4⟩ := h
  cases e with
  | enqueue m =>
    by_cases hd : s.draining
    · rw [qstep]
      simp only [hd, if_true]
      refine ⟨?_, h2, h3, ?_⟩
      · simp only [h1, List.append_assoc]
      · intro hcontra
        simp at hcontra
    · obtain ⟨hif, hq⟩ := h4 (by simpa using hd)
      rw [qstep]
      simp only [hd, if_false, hq, List.nil_append]
      refine ⟨?_, by simp [hif], ?_, ?_⟩
      · rw [h1, hif, hq]
        simp
      · rw [h3, hif]
        simp
      · intro hcontra
        simp at hcontra
  | complete out =>
    cases hif : s.inFlight with
    | nil =>
      rw [qstep]
      simp only [hif]
      exact ⟨h1, h2, h3, h4⟩
    | cons m rest =>
      have hrest : rest = [] := by
        rw [hif] at h2
        rcases rest with _ | ⟨x, xs⟩
        · rfl
        · simp at h2
      cases hq : s.queue with
      | nil =>
        rw [qstep]
        simp only [hif, hq]
        refine ⟨?_, by simp [hrest], ?_, fun _ => ⟨hrest, rfl⟩⟩
        · rw [h1, hif, hq, hrest]
          simp
        · rw [h3, hif, hrest]
          simp
      | cons qh qt =>
        rw [qstep]
        simp only [hif, hq]
        refine ⟨?_, by simp [hrest], ?_, ?_⟩
        · rw [h1, hif, hq, hrest]
          simp
        · rw [h3, hif, hrest]
          simp
        · intro hcontra
          have hfalse : s.draining = false := hcontra
          have hd : s.draining = true := by
            by_contra hd2
            have := (h4 (by simpa using hd2)).1
            rw [hif] at this
            simp at this
          rw [hfalse] at hd
          exact absurd hd (by simp)

theorem qrun_inv_aux : ∀ (evs : List QEvent) (s : QState), QInv s →
    QInv (evs.foldl qstep s) := by
  intro evs
  induction evs with
  | nil => intro s h; exact h
  | cons e t ih =>
    intro s h
    rw [List.foldl_cons]
    exact ih (qstep s e) (qstep_inv s e h)

/-! ## Claim C2 -/
/-- C2: for any sequence of events on one channel, the dispatcher state
satisfies: (1) arrival order is completed messages, then the in-flight
message, then the waiting queue — so messages begin processing in arrival
order and a message begins only after every earlier arrival has fully
completed (success or failure path, including its replies, since
`complete` is the settling of the whole `processMessage` call); (2) at
most one message of the channel is in flight at any time — the
`processingChannels` guard admits a single drain task; (3) begin order
equals completion order plus the current in-flight message; (4) when the
channel is not draining, nothing is in flight and nothing is queued. -/
theorem channel_fifo_no_overlap (evs : List QEvent) :
    (qrun evs).arrived
        = (qrun evs).processed ++ (qrun evs).inFlight ++ (qrun evs).queue
    ∧ (qrun evs).inFlight.length ≤ 1
    ∧ (qrun evs).started = (qrun evs).processed ++ (qrun evs).inFlight
    ∧ ((qrun evs).draining = false → (qrun evs).inFlight = [] ∧ (qrun evs).queue = []) :=
  qrun_inv_aux evs qInit qInit_inv

/-! ## Claim C3 -/
/-- C3: every error while processing a single message is caught at that
message's boundary.  First conjunct: `processMessage` (a total function —
its whole body sits in `try`/`catch`, and the apology itself carries
`.catch(() => {})`) sends exactly one user-visible failure reply on each
failure path (context fetch failed, completion call failed, reply send
failed, empty response) and none on success; attachment "too large"
notices are not failure replies and attachment download failures are
logged and skipped inside the fetcher.  Second conjunct: the dispatcher's
transition on completion of a message is identical whatever the message's
outcome was — a failed message never aborts the drain loop or the
processing of the other queued messages. -/
theorem failure_isolated_per_message (cfg : BotConfig) (dlOk : Attachment → Bool)
    (now : Nat) (atts : List Attachment) (out : PMOutcome) (content : List Char)
    (fs0 : List String) (s : QState) (o1 o2 : PMOutcome) :
    (processMessage cfg dlOk now atts out content fs0).replies.countP isFailureReply
      = (match out with
         | PMOutcome.ok => if jsTrim content = [] then 1 else 0
         | _ => 1)
    ∧ qstep s (QEvent.complete o1) = qstep s (QEvent.complete o2) := by
  constructor
  · have hda := downloadAttachments_replies_countP cfg dlOk now fs0 atts
    cases out with
    | contextFail =>
      rw [processMessage]
      simp only [List.countP_append, hda]
      rfl
    | sendFail =>
      rw [processMessage]
      simp only [List.countP_append, hda]
      rfl
    | ok =>
      rw [processMessage]
      by_cases h : jsTrim content = []
      · rw [if_pos h]
        simp only [List.countP_append, hda, h, if_pos rfl]
        rfl
      · rw [if_neg h]
        simp only [List.countP_append, hda, if_neg h]
        rw [List.countP_eq_zero.mpr ?_]
        · intro r hr
          obtain ⟨ch, _, hch⟩ := List.mem_map.mp hr
          rw [← hch]
          simp [isFailureReply]
    | replyFailAt k =>
      rw [processMessage]
      by_cases h : jsTrim content = []
      · rw [if_pos h]
        simp only [List.countP_append, hda]
        rfl
      · rw [if_neg h]
        simp only [List.countP_append, hda]
        rw [List.countP_eq_zero.mpr ?_]
        · simp [isFailureReply]
        · intro r hr
          obtain ⟨ch, _, hch⟩ := List.mem_map.mp hr
          rw [← hch]
          simp [isFailureReply]
  · rfl

/-! ## Claim C8 -/
theorem fetchLoop_spec (provider : Nat → Option Nat → List HistMsg)
    (hpage : ∀ b, (provider 100 b).length ≤ 100) :
    ∀ (fuel : Nat) (history : List HistMsg) (lastId : Option Nat),
      1000 ≤ history.length + 100 * fuel →
      history.length % 100 = 0 →
      history.length ≤ 1000 →
      (fetchLoop fuel provider history lastId).1
          = history ++ (fetchLoop fuel provider history lastId).2.flatten
      ∧ (fetchLoop fuel provider history lastId).1.length ≤ 1000
      ∧ (∀ b ∈ (fetchLoop fuel provider history lastId).2.dropLast, b.length = 100)
      ∧ (∀ i < (fetchLoop fuel provider history lastId).2.length,
          history.length
            + (((fetchLoop fuel provider history lastId).2.take i).map
                List.length).sum < 1000) := by
  intro fuel
  induction fuel with
  | zero =>
    intro history lastId hfuel hmod hle
    rw [fetchLoop]
    refine ⟨by simp, by simpa using hle, by simp, ?_⟩
    intro i hi
    simp at hi
  | succ n ih =>
    intro history lastId hfuel hmod hle
    by_cases hcond : history.length < 1000
    · rw [fetchLoop]
      simp only [hcond, if_true]
      by_cases hshort : (provider 100 lastId).length < 100
      · simp only [hshort, if_true]
        have hb := hpage lastId
        refine ⟨by simp, ?_, by simp, ?_⟩
        · rw [List.length_append]
          omega
        · intro i hi
          simp only [List.length_cons, List.length_nil] at hi
          have : i = 0 := by omega
          rw [this]
          simpa using hcond
      · simp only [hshort, if_false]
        have hb := hpage lastId
        have hlen : (provider 100 lastId).length = 100 := by omega
        obtain ⟨ih1, ih2, ih3, ih4⟩ := ih (history ++ provider 100 lastId)
          (some (((provider 100 lastId).getLast?).getD default).id)
          (by rw [List.length_append]; omega)
          (by rw [List.length_append]; omega)
          (by rw [List.length_append]; omega)
        refine ⟨?_, ih2, ?_, ?_⟩
        · rw [List.flatten_cons, ih1]
          simp
        · intro b hb2
          by_cases hnil : (fetchLoop n provider (history ++ provider 100 lastId)
              (some (((provider 100 lastId).getLast?).getD default).id)).2 = []
          · rw [hnil] at hb2
            simp at hb2
          · rw [List.dropLast_cons_of_ne_nil hnil] at hb2
            rcases List.mem_cons.mp hb2 with h1 | h1
            · rw [h1]
              exact hlen
            · exact ih3 b h1
        · intro i hi
          cases i with
          | zero => simpa using hcond
          | succ j =>
            simp only [List.length_cons] at hi
            have hj := ih4 j (by omega)
            rw [List.length_append, hlen] at hj
            simp only [List.take_succ_cons, List.map_cons, List.sum_cons, hlen]
            omega
    · rw [fetchLoop]
      simp only [hcond, if_false]
      refine ⟨by simp, by simpa using hle, by simp, ?_⟩
      intro i hi
      simp at hi

/-- C8: with `windowSize = 0`, `buildPrompt` pages through history with
page size 100 and — provided each page holds at most the requested 100
records, the paged API's contract — the loop stops exactly when a page
returns fewer than 100 records or 1000 records have been collected:
the collected history is the concatenation of the fetched pages, it never
exceeds 1000 records, every fetched page except the last is full (100
records), and before every fetch the running total was still below 1000
(no fetch is issued after the stopping condition holds). -/
theorem buildPrompt_paging (provider : Nat → Option Nat → List HistMsg)
    (hpage : ∀ b, (provider 100 b).length ≤ 100) :
    buildPromptHistory 0 provider = (buildPromptPages provider).2.flatten
    ∧ (buildPromptHistory 0 provider).length ≤ 1000
    ∧ (∀ b ∈ (buildPromptPages provider).2.dropLast, b.length = 100)
    ∧ (∀ i < (buildPromptPages provider).2.length,
        (((buildPromptPages provider).2.take i).map List.length).sum < 1000) := by
  obtain ⟨h1, h2, h3, h4⟩ := fetchLoop_spec provider hpage 11 [] none
    (by norm_num) (by norm_num) (by norm_num)
  refine ⟨?_, ?_, h3, ?_⟩
  · rw [buildPromptHistory]
    norm_num [buildPromptPages]
    simpa using h1
  · rw [buildPromptHistory]
    norm_num [buildPromptPages]
    simpa using h2
  · intro i hi
    have := h4 i hi
    simpa using this

/-- Witness for C8 with `shortPageProvider`: pages respect the size bound,
and the loop stops after the first (short) page with at most 1000 records
collected. -/
theorem buildPrompt_paging_witness :
    (∀ b, (shortPageProvider 100 b).length ≤ 100)
    ∧ buildPromptHistory 0 shortPageProvider
        = (buildPromptPages shortPageProvider).2.flatten
    ∧ (buildPromptHistory 0 shortPageProvider).length ≤ 1000 := by
  have hpage : ∀ b : Option Nat, (shortPageProvider 100 b).length ≤ 100 := by
    intro b
    simp [shortPageProvider]
  have h := buildPrompt_paging shortPageProvider hpage
  exact ⟨hpage, h.1, h.2.1⟩

/-! ## Claim C9 -/
/-- C9: `setModel` with an identifier outside the fixed catalog throws
`UnknownModelError` (`Unknown model "id"`) and leaves the active selection
unchanged, so a subsequent `send` still puts the previous model on the
wire; with a catalog identifier it succeeds and updates the selection, so
subsequent `send` calls use the new model. -/
theorem setModel_catalog (s : CopilotState) (id : String) (msgs : List String) :
    (MODELS.all (fun m => m.id != id) = true →
      setModel s id = (s, some ("Unknown model \"" ++ id ++ "\""))
      ∧ (requestBody (setModel s id).1 msgs).model = s.model)
    ∧ (MODELS.any (fun m => m.id == id) = true →
      setModel s id = ({ s with model := id }, none)
      ∧ (requestBody (setModel s id).1 msgs).model = id) := by
  constructor
  · intro h
    have hnone : MODELS.find? (fun m => m.id == id) = none := by
      rw [List.find?_eq_none]
      intro m hm
      have := List.all_eq_true.mp h m hm
      simpa using this
    rw [setModel, hnone]
    exact ⟨rfl, rfl⟩
  · intro h
    obtain ⟨m, hm, hid⟩ := List.any_eq_true.mp h
    cases hfind : MODELS.find? (fun mo => mo.id == id) with
    | none =>
      rw [List.find?_eq_none] at hfind
      exact absurd hid (by simpa using hfind m hm)
    | some mo =>
      rw [setModel, hfind]
      exact ⟨rfl, rfl⟩

/-- Witness for C9: `"not-real-model"` (the identifier the repository's own
test uses) is rejected with the selection untouched, and `"gpt-4o"` is
accepted and used by subsequent sends. -/
theorem setModel_catalog_witness :
    (MODELS.all (fun m => m.id != "not-real-model") = true
      ∧ setModel (CopilotManager.init "tok") "not-real-model"
          = (CopilotManager.init "tok", some "Unknown model \"not-real-model\"")
      ∧ (requestBody (setModel (CopilotManager.init "tok") "not-real-model").1 ["hi"]).model
          = (CopilotManager.init "tok").model)
    ∧ (MODELS.any (fun m => m.id == "gpt-4o") = true
      ∧ setModel (CopilotManager.init "tok") "gpt-4o"
          = ({ CopilotManager.init "tok" with model := "gpt-4o" }, none)
      ∧ (requestBody (setModel (CopilotManager.init "tok") "gpt-4o").1 ["hi"]).model
          = "gpt-4o") := by
  have h1 : MODELS.all (fun m => m.id != "not-real-model") = true := by decide
  have h2 : MODELS.any (fun m => m.id == "gpt-4o") = true := by decide
  have w1 := (setModel_catalog (CopilotManager.init "tok") "not-real-model" ["hi"]).1 h1
  have w2 := (setModel_catalog (CopilotManager.init "tok") "gpt-4o" ["hi"]).2 h2
  exact ⟨⟨h1, w1.1, w1.2⟩, ⟨h2, w2.1, w2.2⟩⟩

end CoBot